import Mathlib

/-!
Shallow embedding of the pug run/logging/table code, with theorems checking
the specification's claims against it.

Conventions used throughout:
* Go `time.Time` values are modelled as naturals supplied by the caller
  (each call site of `time.Now()` receives its own parameter).
* Go `error` values are modelled as `Option String` (`none` is the nil error).
* Go maps are modelled as association lists, updated functionally.
* Fallible Go code (directory creation, file writes, decoding) returns
  `Option`/`Except`, with `none`/`.error` standing for the Go error path,
  and a Go runtime fault (out-of-range slice) is modelled as `none`.
-/

namespace Pug

/-- Modelled from the spec: the resource package is not part of the corpus;
the spec says every entity has a kind tag drawn from the entity sorts. -/
inductive Kind where
  | Module
  | Workspace
  | Run
  | Task
  | Log
  | Global
deriving DecidableEq

/-- The identifying data of one resource: unique identifier, kind tag, name. -/
structure ResourceData where
  rid : Nat
  kind : Kind
  name : String
deriving DecidableEq

/-- Modelled from the spec: the resource package is not part of the corpus;
a Resource is an opaque unique identifier, a kind tag and an optional
parent reference, forming a tree. Identifiers are modelled as naturals and
the parent reference as the chain of ancestor data, nearest first. -/
structure Resource where
  data : ResourceData
  ancestry : List ResourceData
deriving DecidableEq

def Resource.rid (r : Resource) : Nat := r.data.rid

def Resource.kind (r : Resource) : Kind := r.data.kind

def Resource.name (r : Resource) : String := r.data.name

def Resource.parent (r : Resource) : Option Resource :=
  match r.ancestry with
  | [] => none
  | p :: rest => some ⟨p, rest⟩

/-- Modelled from the spec: `resource.New(kind, name, parent)` allocates an
identifier and records ancestry; the allocated identifier is passed in. -/
def Resource.new (rid : Nat) (k : Kind) (name : String) (parent : Option Resource) : Resource :=
  ⟨⟨rid, k, name⟩,
    match parent with
    | none => []
    | some p => p.data :: p.ancestry⟩

/-- Modelled from the spec: `Resource.String()` (the string form used for
ancestry walks and path construction) is not in the corpus; the string
form of a resource is modelled as its name. -/
def Resource.string (r : Resource) : String := r.name

/-- Fuel-indexed little-endian decimal digits of a natural. -/
def decDigitsAux : Nat → Nat → List Nat
  | _, 0 => []
  | 0, _ + 1 => []
  | fuel + 1, n + 1 => (n + 1) % 10 :: decDigitsAux fuel ((n + 1) / 10)

/-- Little-endian decimal digits of a natural (empty for zero). -/
def decDigits (n : Nat) : List Nat := decDigitsAux n n

def digitChar (d : Nat) : Char :=
  match d with
  | 0 => '0'
  | 1 => '1'
  | 2 => '2'
  | 3 => '3'
  | 4 => '4'
  | 5 => '5'
  | 6 => '6'
  | 7 => '7'
  | 8 => '8'
  | 9 => '9'
  | _ => '*'

/-- Modelled from the spec: `ID.String()` is not in the corpus; the string
form of an identifier is modelled as its decimal rendering. -/
def idString (n : Nat) : String := String.mk ((decDigits n).map digitChar).reverse

/-- `filepath.Join` restricted to already-clean path components, as used by
the run package: the empty left component disappears, otherwise the two
components are joined with one separator. -/
def joinPath (a b : String) : String := if a = "" then b else a ++ "/" ++ b

/-- Modelled from the spec: the workspace package's `PugDirectory` helper is
not in the corpus; the per-workspace pug directory is derived from the
workspace name beneath a fixed `.pug` directory. -/
def workspacePugDirectory (name : String) : String := joinPath ".pug" name

/-- Run status, from run.go. -/
inductive Status where
  | Pending
  | Scheduled
  | PlanQueued
  | Planning
  | Planned
  | PlannedAndFinished
  | ApplyQueued
  | Applying
  | Applied
  | Errored
  | Canceled
  | Discarded
deriving DecidableEq

/-- Modelled from the spec: plan/apply result summaries carry counts of
resources to add, change and destroy (the Report type is not in the corpus). -/
structure Report where
  additions : Int := 0
  changes : Int := 0
  destructions : Int := 0
deriving DecidableEq

/-- A Go error value: `none` is the nil error. -/
def GoErr := Option String
deriving DecidableEq

/-- The Run struct from run.go. The after-update callback is external state;
only its presence (`afterUpdate != nil`) is observable to the embedding, and
its invocation is modelled as an emitted `RunEvent`. -/
structure Run where
  res : Resource
  created : Nat
  updated : Nat
  status : Status
  autoApply : Bool
  planOnly : Bool
  planReport : Report := {}
  applyReport : Report := {}
  planTask : Option Resource := none
  applyTask : Option Resource := none
  error : GoErr
  hasAfterUpdate : Bool
deriving DecidableEq

/-- The Workspace type is consumed as an opaque parent carrying an
`AutoApply` flag and a Resource identity. -/
structure Workspace where
  res : Resource
  autoApply : Bool
deriving DecidableEq

/-- The Module type is consumed as an opaque ancestor with a Resource
identity. -/
structure Module where
  res : Resource
deriving DecidableEq

/-- CreateOptions from run.go; the callback field is modelled by presence. -/
structure CreateOptions where
  planOnly : Bool
  hasAfterUpdate : Bool := false
deriving DecidableEq

/-- newRun from run.go. `rid` is the identifier allocated by `resource.New`,
`now1`/`now2` the two `time.Now()` readings, and `mkdirOk` the outcome of
`os.MkdirAll` (false yields the Go error return). The Go struct literal
does not mention the `PlanOnly` field, so it takes the zero value. -/
def newRun (_mod : Module) (ws : Workspace) (opts : CreateOptions)
    (rid : Nat) (now1 now2 : Nat) (mkdirOk : Bool) : Option Run :=
  let run : Run := {
    res := Resource.new rid Kind.Run "" (some ws.res)
    status := Status.Pending
    autoApply := ws.autoApply
    created := now1
    updated := now2
    hasAfterUpdate := opts.hasAfterUpdate
    planOnly := false
    error := none }
  if mkdirOk then some run else none

/-- Workspace() from run.go dereferences the parent pointer; a nil parent
(fault) is `none`. -/
def Run.Workspace (r : Run) : Option Resource := r.res.parent

/-- WorkspaceName() from run.go. -/
def Run.WorkspaceName (r : Run) : Option String := r.Workspace.map Resource.string

/-- Module() from run.go dereferences the workspace's parent pointer. -/
def Run.Module (r : Run) : Option Resource := r.Workspace.bind Resource.parent

/-- ModulePath() from run.go. -/
def Run.ModulePath (r : Run) : Option String := r.Module.map Resource.string

/-- PugDirectory() from run.go: join of the workspace pug directory and the
run's identifier string. -/
def Run.PugDirectory (r : Run) : Option String :=
  r.Workspace.map fun w =>
    joinPath (workspacePugDirectory w.string) (idString r.res.rid)

/-- PlanPath() from run.go. -/
def Run.PlanPath (r : Run) : Option String :=
  r.PugDirectory.map fun d => joinPath d "plan.out"

/-- IsFinished() from run.go: note the switch lists exactly these four
statuses. -/
def Run.IsFinished (r : Run) : Bool :=
  match r.status with
  | Status.PlannedAndFinished | Status.Applied | Status.Errored | Status.Canceled => true
  | _ => false

/-- Observable side effects of a status update: the synchronous after-update
callback invocation (with the updated run) and the structured completion
log record. -/
inductive RunEvent where
  | afterUpdateCall (r : Run)
  | completedRunLog (status : Status)
deriving DecidableEq

/-- updateStatus from run.go: sets the status, refreshes `Updated`, invokes
the registered callback if present, then logs completion when the (new)
run is finished. -/
def Run.updateStatus (r : Run) (status : Status) (now : Nat) : Run × List RunEvent :=
  ({ r with status := status, updated := now },
    (if r.hasAfterUpdate
      then [RunEvent.afterUpdateCall { r with status := status, updated := now }]
      else [])
    ++ (if Run.IsFinished { r with status := status, updated := now }
      then [RunEvent.completedRunLog status]
      else []))

/-- setErrored from run.go: records the error, then updates the status to
Errored. -/
def Run.setErrored (r : Run) (err : GoErr) (now : Nat) : Run × List RunEvent :=
  Run.updateStatus { r with error := err } Status.Errored now

/-- The spec's set of terminal run states (PlannedAndFinished, Applied,
Errored, Canceled, Discarded), written from the spec's words so it can be
compared with the code's IsFinished. -/
def specTerminal (s : Status) : Bool :=
  match s with
  | Status.PlannedAndFinished | Status.Applied | Status.Errored
  | Status.Canceled | Status.Discarded => true
  | _ => false

/-- The transition discipline from the spec: a terminal run never
transitions again, runs enter Errored only through setErrored, and
setErrored carries the (non-nil) triggering error. Within that discipline
the two mutators of run.go generate all transitions. -/
inductive RunStep : Run → Run → Prop where
  | update (r : Run) (s : Status) (now : Nat) :
      specTerminal r.status = false → s ≠ Status.Errored →
      RunStep r (r.updateStatus s now).1
  | errored (r : Run) (e : String) (now : Nat) :
      specTerminal r.status = false →
      RunStep r (r.setErrored (some e) now).1

/- Concrete fixtures used by witnesses and counterexamples. -/

def cModuleRes : Resource := Resource.new 10 Kind.Module "mod" none

def cModule : Module := ⟨cModuleRes⟩

def cWsRes : Resource := Resource.new 11 Kind.Workspace "default" (some cModuleRes)

def cWs : Workspace := ⟨cWsRes, true⟩

def cOpts : CreateOptions := { planOnly := false, hasAfterUpdate := true }

def cFallbackRun : Run :=
  { res := Resource.new 0 Kind.Run "" none
    created := 0
    updated := 0
    status := Status.Pending
    autoApply := false
    planOnly := false
    error := none
    hasAfterUpdate := false }

def cRun0 : Run := (newRun cModule cWs cOpts 1 0 0 true).getD cFallbackRun

def cDiscardedRun : Run := { cRun0 with status := Status.Discarded }

/-- C1: for every run reachable from newRun under the spec's transition
discipline the Error field is non-nil iff the status is Errored; setErrored
establishes both the error and the Errored status; and updateStatus never
touches the Error field. -/
theorem run_error_iff_errored :
    (∀ (moda : Module) (ws : Workspace) (opts : CreateOptions) (rid n1 n2 : Nat)
        (r0 r : Run), newRun moda ws opts rid n1 n2 true = some r0 →
        Relation.ReflTransGen RunStep r0 r →
        (r.error ≠ none ↔ r.status = Status.Errored))
    ∧ (∀ (r : Run) (e : String) (now : Nat),
        (r.setErrored (some e) now).1.error = some e
        ∧ (r.setErrored (some e) now).1.status = Status.Errored)
    ∧ (∀ (r : Run) (s : Status) (now : Nat),
        (r.updateStatus s now).1.error = r.error) := by
  refine ⟨?_, fun r e now => ⟨rfl, rfl⟩, fun r s now => rfl⟩
  intro moda ws opts rid n1 n2 r0 r hnew hreach
  have h0 : r0.error = none ∧ r0.status = Status.Pending := by
    simp only [newRun, if_true] at hnew
    cases hnew
    exact ⟨rfl, rfl⟩
  induction hreach with
  | refl =>
      rw [h0.1, h0.2]
      simp
  | @tail b c hsteps hstep ih =>
      cases hstep with
      | update s now hterm hs =>
          have hb : b.error = none := by
            by_contra hne
            have : b.status = Status.Errored := ih.mp hne
            rw [this] at hterm
            simp [specTerminal] at hterm
          have he : (b.updateStatus s now).1.error = b.error := rfl
          have hst : (b.updateStatus s now).1.status = s := rfl
          rw [he, hst, hb]
          simp [hs]
      | errored e now hterm =>
          have he : (b.setErrored (some e) now).1.error = some e := rfl
          have hst : (b.setErrored (some e) now).1.status = Status.Errored := rfl
          rw [he, hst]
          simp

theorem run_error_iff_errored_witness :
    cRun0.error ≠ none ↔ cRun0.status = Status.Errored :=
  run_error_iff_errored.1 cModule cWs cOpts 1 0 0 cRun0 cRun0 rfl
    Relation.ReflTransGen.refl

/-- C2 counterexample: at a run whose status is Discarded, IsFinished
returns false although Discarded is in the spec's terminal set, refuting
the claimed equivalence. -/
theorem isFinished_discarded_cex :
    ¬ (cDiscardedRun.IsFinished = true ↔ specTerminal cDiscardedRun.status = true) := by
  decide

/-- C2 (amended): IsFinished returns true iff the status is one of
PlannedAndFinished, Applied, Errored, Canceled; Discarded is not in the
code's switch. -/
theorem isFinished_iff (r : Run) :
    r.IsFinished = true ↔
      (r.status = Status.PlannedAndFinished ∨ r.status = Status.Applied
        ∨ r.status = Status.Errored ∨ r.status = Status.Canceled) := by
  cases h : r.status <;> simp [Run.IsFinished, h]

/-- C3 counterexample: updateStatus to Discarded emits no completion log
record although Discarded is terminal in the spec's sense, refuting the
claim's "iff the new status is terminal". -/
theorem updateStatus_discarded_no_log_cex :
    ¬ ((RunEvent.completedRunLog Status.Discarded ∈ (cRun0.updateStatus Status.Discarded 7).2)
        ↔ specTerminal Status.Discarded = true) := by
  decide

/-- C3 (amended): updateStatus(s) sets the status to s, sets Updated to the
current time, invokes the registered callback exactly once, and emits a
completion log record iff IsFinished holds of the new status (all spec
terminal states except Discarded); setErrored records the triggering error
value. -/
theorem updateStatus_effects :
    (∀ (r : Run) (s : Status) (now : Nat),
        (r.updateStatus s now).1.status = s
        ∧ (r.updateStatus s now).1.updated = now
        ∧ (r.hasAfterUpdate = true →
            (r.updateStatus s now).2.count
              (RunEvent.afterUpdateCall (r.updateStatus s now).1) = 1)
        ∧ (RunEvent.completedRunLog s ∈ (r.updateStatus s now).2
            ↔ (r.updateStatus s now).1.IsFinished = true))
    ∧ (∀ (r : Run) (e : GoErr) (now : Nat),
        (r.setErrored e now).1.error = e
        ∧ (r.setErrored e now).1.status = Status.Errored) := by
  refine ⟨fun r s now => ⟨rfl, rfl, ?_, ?_⟩, fun r e now => ⟨rfl, rfl⟩⟩
  · intro hb
    simp only [Run.updateStatus, hb, if_true]
    split <;> simp
  · by_cases hfin : Run.IsFinished { r with status := s, updated := now } <;>
      simp [Run.updateStatus, hfin]

theorem updateStatus_effects_witness :
    (cRun0.updateStatus Status.Planning 7).2.count
      (RunEvent.afterUpdateCall (cRun0.updateStatus Status.Planning 7).1) = 1 :=
  (updateStatus_effects.1 cRun0 Status.Planning 7).2.2.1 rfl

def cOptsPlanOnlyTrue : CreateOptions := { planOnly := true, hasAfterUpdate := false }

def cRunPO : Run := (newRun cModule cWs cOptsPlanOnlyTrue 2 0 0 true).getD cFallbackRun

/-- C4: the Go struct literal in newRun never reads opts.PlanOnly, so every
run it returns has PlanOnly false, even when the options ask for true. -/
theorem newRun_planOnly_dropped :
    (∀ (moda : Module) (ws : Workspace) (opts : CreateOptions) (rid n1 n2 : Nat) (r : Run),
        newRun moda ws opts rid n1 n2 true = some r → r.planOnly = false)
    ∧ ((newRun cModule cWs cOptsPlanOnlyTrue 1 0 0 true).map Run.planOnly = some false
        ∧ cOptsPlanOnlyTrue.planOnly = true) := by
  refine ⟨?_, rfl, rfl⟩
  intro moda ws opts rid n1 n2 r h
  simp only [newRun, if_true] at h
  cases h
  rfl

theorem newRun_planOnly_dropped_witness : cRunPO.planOnly = false :=
  newRun_planOnly_dropped.1 cModule cWs cOptsPlanOnlyTrue 2 0 0 cRunPO rfl

/-- C5: a successfully created run starts in Pending, copies AutoApply from
the workspace, and has Created and Updated set to the creation-time
readings. -/
theorem newRun_initial_state :
    ∀ (moda : Module) (ws : Workspace) (opts : CreateOptions) (rid n1 n2 : Nat) (r : Run),
      newRun moda ws opts rid n1 n2 true = some r →
      r.status = Status.Pending ∧ r.autoApply = ws.autoApply
        ∧ r.created = n1 ∧ r.updated = n2 := by
  intro moda ws opts rid n1 n2 r h
  simp only [newRun, if_true] at h
  cases h
  exact ⟨rfl, rfl, rfl, rfl⟩

theorem newRun_initial_state_witness :
    cRun0.status = Status.Pending ∧ cRun0.autoApply = cWs.autoApply
      ∧ cRun0.created = 0 ∧ cRun0.updated = 0 :=
  newRun_initial_state cModule cWs cOpts 1 0 0 cRun0 rfl

/-- C7: a run created by newRun has kind Run, its Workspace() is the given
workspace's resource, WorkspaceName() is that resource's string form, and
Module() is the resource referenced by the workspace's parent. -/
theorem newRun_resource_tree :
    ∀ (moda : Module) (ws : Workspace) (opts : CreateOptions) (rid n1 n2 : Nat) (r : Run),
      newRun moda ws opts rid n1 n2 true = some r →
      r.res.kind = Kind.Run
        ∧ r.Workspace = some ws.res
        ∧ r.WorkspaceName = some ws.res.string
        ∧ (∀ p, ws.res.parent = some p → r.Module = some p) := by
  intro moda ws opts rid n1 n2 r h
  simp only [newRun, if_true] at h
  cases h
  refine ⟨rfl, rfl, rfl, ?_⟩
  intro p hp
  rw [← hp]
  rfl

theorem newRun_resource_tree_witness :
    cRun0.res.kind = Kind.Run ∧ cRun0.Module = some cModuleRes :=
  ⟨(newRun_resource_tree cModule cWs cOpts 1 0 0 cRun0 rfl).1,
   (newRun_resource_tree cModule cWs cOpts 1 0 0 cRun0 rfl).2.2.2 cModuleRes rfl⟩

/-- Value of a little-endian decimal digit list. -/
def decVal : List Nat → Nat
  | [] => 0
  | d :: ds => d + 10 * decVal ds

theorem decVal_decDigitsAux :
    ∀ (fuel n : Nat), n ≤ fuel → decVal (decDigitsAux fuel n) = n := by
  intro fuel
  induction fuel with
  | zero =>
      intro n hn
      interval_cases n
      rfl
  | succ f ih =>
      intro n hn
      match n with
      | 0 => rfl
      | m + 1 =>
          show decVal ((m + 1) % 10 :: decDigitsAux f ((m + 1) / 10)) = m + 1
          have hdiv : (m + 1) / 10 ≤ f := by
            have : (m + 1) / 10 < m + 1 := Nat.div_lt_self (Nat.succ_pos m) (by norm_num)
            omega
          simp only [decVal, ih _ hdiv]
          omega

theorem decDigits_injective (m n : Nat) (h : decDigits m = decDigits n) : m = n := by
  have hm := decVal_decDigitsAux m m le_rfl
  have hn := decVal_decDigitsAux n n le_rfl
  rw [decDigits] at h
  rw [h] at hm
  exact hm.symm.trans hn

theorem decDigitsAux_lt :
    ∀ (fuel n : Nat), ∀ d ∈ decDigitsAux fuel n, d < 10 := by
  intro fuel
  induction fuel with
  | zero =>
      intro n d hd
      cases n <;> simp [decDigitsAux] at hd
  | succ f ih =>
      intro n d hd
      match n with
      | 0 => simp [decDigitsAux] at hd
      | m + 1 =>
          simp only [decDigitsAux, List.mem_cons] at hd
          rcases hd with h | h
          · omega
          · exact ih _ d h

theorem digitChar_inj (d1 d2 : Nat) (h1 : d1 < 10) (h2 : d2 < 10) :
    digitChar d1 = digitChar d2 → d1 = d2 := by
  interval_cases d1 <;> interval_cases d2 <;> decide

theorem digitChar_ne_slash (d : Nat) (hd : d < 10) : digitChar d ≠ '/' := by
  interval_cases d <;> decide

theorem map_digitChar_inj :
    ∀ (l1 l2 : List Nat), (∀ d ∈ l1, d < 10) → (∀ d ∈ l2, d < 10) →
      l1.map digitChar = l2.map digitChar → l1 = l2 := by
  intro l1
  induction l1 with
  | nil =>
      intro l2 _ _ h
      cases l2 with
      | nil => rfl
      | cons b t2 => simp at h
  | cons a t ih =>
      intro l2 h1 h2 h
      cases l2 with
      | nil => simp at h
      | cons b t2 =>
          simp only [List.map_cons, List.cons.injEq] at h
          have ha : a = b :=
            digitChar_inj a b (h1 a (by simp)) (h2 b (by simp)) h.1
          have ht : t = t2 :=
            ih t2 (fun d hd => h1 d (by simp [hd])) (fun d hd => h2 d (by simp [hd])) h.2
          rw [ha, ht]

theorem idString_injective (m n : Nat) (h : idString m = idString n) : m = n := by
  have hl : ((decDigits m).map digitChar).reverse
      = ((decDigits n).map digitChar).reverse := congrArg String.data h
  have hl2 : (decDigits m).map digitChar = (decDigits n).map digitChar :=
    List.reverse_injective hl
  exact decDigits_injective m n
    (map_digitChar_inj _ _ (decDigitsAux_lt m m) (decDigitsAux_lt n n) hl2)

theorem idString_no_slash (n : Nat) : '/' ∉ (idString n).data := by
  intro h
  have h2 : '/' ∈ ((decDigits n).map digitChar).reverse := h
  rw [List.mem_reverse] at h2
  rcases List.mem_map.mp h2 with ⟨d, hd, hc⟩
  exact digitChar_ne_slash d (decDigitsAux_lt n n d hd) hc

theorem slashFree_append_inj :
    ∀ (u v p q : List Char), '/' ∉ u → '/' ∉ v →
      u ++ '/' :: p = v ++ '/' :: q → u = v ∧ p = q := by
  intro u
  induction u with
  | nil =>
      intro v p q _ hv h
      cases v with
      | nil =>
          simp only [List.nil_append, List.cons.injEq] at h
          exact ⟨rfl, h.2⟩
      | cons b t =>
          simp only [List.nil_append, List.cons_append, List.cons.injEq] at h
          exact absurd (h.1 ▸ List.mem_cons_self b t) (h.1 ▸ hv)
  | cons a t ih =>
      intro v p q hu hv h
      cases v with
      | nil =>
          simp only [List.cons_append, List.nil_append, List.cons.injEq] at h
          exact absurd (h.1 ▸ List.mem_cons_self a t) (by rw [h.1] at hu; exact hu)
      | cons b t2 =>
          simp only [List.cons_append, List.cons.injEq] at h
          have hrest := ih t2 p q (fun hm => hu (List.mem_cons_of_mem a hm))
            (fun hm => hv (List.mem_cons_of_mem b hm)) h.2
          exact ⟨by rw [h.1, hrest.1], hrest.2⟩

theorem append_slash_right_inj (a b : String) (x y : List Char)
    (hx : '/' ∉ x) (hy : '/' ∉ y)
    (h : a.data ++ '/' :: x = b.data ++ '/' :: y) : x = y := by
  have hr := congrArg List.reverse h
  simp only [List.reverse_append, List.reverse_cons] at hr
  have hr2 : x.reverse ++ '/' :: a.data.reverse
      = y.reverse ++ '/' :: b.data.reverse := by
    simpa [List.append_assoc] using hr
  have hxy := (slashFree_append_inj x.reverse y.reverse a.data.reverse b.data.reverse
    (by simpa using hx) (by simpa using hy) hr2).1
  exact List.reverse_injective hxy

theorem joinPath_eq (a b : String) (h : a ≠ "") : joinPath a b = a ++ "/" ++ b := by
  unfold joinPath
  rw [if_neg h]

theorem workspacePugDirectory_ne_empty (s : String) : workspacePugDirectory s ≠ "" := by
  intro h
  have hd := congrArg String.data h
  rw [workspacePugDirectory, joinPath_eq _ _ (by decide)] at hd
  simp [String.data_append] at hd

theorem data_join (a b : String) : (a ++ "/" ++ b).data = a.data ++ '/' :: b.data := by
  simp [String.data_append]

def cRunP2 : Run := (newRun cModule cWs cOpts 2 0 0 true).getD cFallbackRun

def cDir0 : String := cRun0.PugDirectory.getD ""

/-- C6: PugDirectory is a function of the workspace name and the run's
identifier; PlanPath is PugDirectory joined with the plan file name; and
runs with distinct identifiers have distinct pug directories. -/
theorem pugDirectory_spec :
    (∀ r1 r2 : Run, r1.WorkspaceName = r2.WorkspaceName →
        r1.res.rid = r2.res.rid → r1.PugDirectory = r2.PugDirectory)
    ∧ (∀ (r : Run) (d : String), r.PugDirectory = some d →
        r.PlanPath = some (joinPath d "plan.out"))
    ∧ (∀ r1 r2 : Run, (r1.Workspace).isSome = true → (r2.Workspace).isSome = true →
        r1.res.rid ≠ r2.res.rid → r1.PugDirectory ≠ r2.PugDirectory) := by
  refine ⟨?_, ?_, ?_⟩
  · intro r1 r2 hw hid
    simp only [Run.WorkspaceName] at hw
    simp only [Run.PugDirectory]
    cases h1 : r1.Workspace with
    | none =>
        cases h2 : r2.Workspace with
        | none => rfl
        | some w2 => rw [h1, h2] at hw; simp at hw
    | some w1 =>
        cases h2 : r2.Workspace with
        | none => rw [h1, h2] at hw; simp at hw
        | some w2 =>
            rw [h1, h2] at hw
            simp only [Option.map_some', Option.some.injEq] at hw
            simp only [Option.map_some', Option.some.injEq]
            rw [hw, hid]
  · intro r d h
    simp [Run.PlanPath, h]
  · intro r1 r2 h1 h2 hne heq
    apply hne
    obtain ⟨w1, hw1⟩ := Option.isSome_iff_exists.mp h1
    obtain ⟨w2, hw2⟩ := Option.isSome_iff_exists.mp h2
    simp only [Run.PugDirectory, hw1, hw2, Option.map_some', Option.some.injEq] at heq
    rw [joinPath_eq _ _ (workspacePugDirectory_ne_empty _),
      joinPath_eq _ _ (workspacePugDirectory_ne_empty _)] at heq
    have hd := congrArg String.data heq
    rw [data_join, data_join] at hd
    have hids : (idString r1.res.rid).data = (idString r2.res.rid).data :=
      append_slash_right_inj _ _ _ _ (idString_no_slash _) (idString_no_slash _) hd
    exact idString_injective _ _ (String.ext hids)

theorem pugDirectory_spec_witness :
    cRun0.PlanPath = some (joinPath cDir0 "plan.out")
      ∧ cRun0.PugDirectory ≠ cRunP2.PugDirectory :=
  ⟨pugDirectory_spec.2.1 cRun0 cDir0 rfl,
   pugDirectory_spec.2.2 cRun0 cRunP2 rfl rfl (by decide)⟩

/- Go maps, modelled as association lists updated functionally. -/

def lookupA {K V : Type} [DecidableEq K] (l : List (K × V)) (k : K) : Option V :=
  (l.find? (fun p => p.1 == k)).map (fun p => p.2)

def eraseA {K V : Type} [DecidableEq K] (l : List (K × V)) (k : K) : List (K × V) :=
  l.filter (fun p => !(p.1 == k))

def insertA {K V : Type} [DecidableEq K] (l : List (K × V)) (k : K) (v : V) :
    List (K × V) :=
  eraseA l k ++ [(k, v)]

namespace TableT

/-- One line of the per-entity table widget (table/table.go Row). -/
structure Row (T : Type) where
  Cells : List String
  Entity : T
deriving DecidableEq

/-- The selection-relevant state of the per-entity table widget
(table/table.go Model). Viewport, column and style fields only affect
rendering and are omitted; entity identifiers are resource IDs, modelled
as naturals and extracted by an explicit `idOf` function standing for the
Item interface's ID method. -/
structure Model (T : Type) where
  rows : List (Row T)
  cursor : Int
  selectable : Bool
  selectAll : Bool
  Selected : List (Nat × T)
  items : List (Nat × T)
deriving DecidableEq

/-- Highlighted from table/table.go: the entity on the cursor row, none
when the cursor is out of bounds. -/
def Model.Highlighted {T : Type} (m : Model T) : Option T :=
  if m.cursor < 0 ∨ (m.rows.length : Int) ≤ m.cursor then none
  else (m.rows.get? m.cursor.toNat).map Row.Entity

/-- ToggleSelection from table/table.go. The Go two-result map index
`entity, isSelected := m.Selected[highlighted.ID()]` binds `entity` to the
zero value of T when the key is absent, and the else branch stores that
variable; `zero` is the zero value of T. -/
def Model.ToggleSelection {T : Type} (idOf : T → Nat) (zero : T) (m : Model T) :
    Model T :=
  if m.selectable = false then m
  else
    match m.Highlighted with
    | none => m
    | some highlighted =>
        match lookupA m.Selected (idOf highlighted) with
        | some _ => { m with Selected := eraseA m.Selected (idOf highlighted) }
        | none => { m with Selected := insertA m.Selected (idOf highlighted) zero }

end TableT

def cTable : TableT.Model Nat :=
  { rows := [⟨[], 5⟩]
    cursor := 0
    selectable := true
    selectAll := false
    Selected := []
    items := [(5, 5)] }

/-- C8: evaluating ToggleSelection at a table whose highlighted entity is 5
(with ID 5 and zero value 0) stores the mapping 5 to 0 -- the zero value,
not the highlighted entity -- and a second call removes the mapping. -/
theorem toggleSelection_zero_value_cex :
    cTable.Highlighted = some 5
      ∧ (TableT.Model.ToggleSelection (fun t => t) 0 cTable).Selected = [(5, 0)]
      ∧ lookupA (TableT.Model.ToggleSelection (fun t => t) 0 cTable).Selected 5 = some 0
      ∧ (TableT.Model.ToggleSelection (fun t => t) 0
          (TableT.Model.ToggleSelection (fun t => t) 0 cTable)).Selected = [] := by
  decide

namespace TableKV

/-- One row of the generic key/value table widget (the table package's
Model with key and value type parameters). -/
structure Row (K V : Type) where
  Key : K
  Value : V
deriving DecidableEq

/-- The selection-relevant state of the generic key/value table widget.
Viewport, filter, column and style fields only affect rendering and are
omitted. -/
structure Model (K V : Type) where
  rows : List (Row K V)
  cursor : Int
  selectable : Bool
  selectAll : Bool
  Selected : List (K × V)
  items : List (K × V)
deriving DecidableEq

/-- ToggleSelectionByKey from the generic table widget: toggles via the
items map, so a key present in items but filtered out of rows can enter
Selected. -/
def Model.ToggleSelectionByKey {K V : Type} [DecidableEq K]
    (m : Model K V) (key : K) : Model K V :=
  if m.selectable = false then m
  else
    match lookupA m.items key with
    | none => m
    | some v =>
        match lookupA m.Selected key with
        | some _ => { m with Selected := eraseA m.Selected key }
        | none => { m with Selected := insertA m.Selected key v }

/-- The row loop of SelectRange, returning the pair (first, n) the Go code
computes: scan the rows in order with their index, stopping at the Go
break statements. -/
def selectRangeScan {K V : Type} [DecidableEq K] (m : Model K V) :
    List (Row K V) → Nat → Int → Int × Int
  | [], _, first => (first, 0)
  | row :: rest, i, first =>
      if (i : Int) = m.cursor ∧ first > -1 ∧ first < m.cursor then
        (first, m.cursor - first + 1)
      else if (lookupA m.Selected row.Key).isNone then
        selectRangeScan m rest (i + 1) first
      else if (i : Int) > m.cursor then
        (m.cursor, (i : Int) - m.cursor)
      else
        selectRangeScan m rest (i + 1) ((i : Int) + 1)

/-- SelectRange from the generic table widget. The final Go slice
expression m.rows[first : first+n] is out of range (a runtime fault)
unless 0 <= first <= first+n <= len(rows); the fault is modelled as none. -/
def Model.SelectRange {K V : Type} [DecidableEq K] (m : Model K V) :
    Option (Model K V) :=
  if m.selectable = false then some m
  else if m.Selected.length = 0 then some m
  else
    let fn := selectRangeScan m m.rows 0 (-1)
    if 0 ≤ fn.1 ∧ fn.1 ≤ fn.1 + fn.2 ∧ fn.1 + fn.2 ≤ (m.rows.length : Int) then
      let sliced := (m.rows.drop fn.1.toNat).take fn.2.toNat
      let newSel := sliced.foldl (fun acc row => insertA acc row.Key row.Value) m.Selected
      some { m with Selected := newSel }
    else none

end TableKV

def cKV : TableKV.Model Nat Nat :=
  { rows := [⟨1, 10⟩]
    cursor := 0
    selectable := true
    selectAll := false
    Selected := []
    items := [(1, 10), (2, 20)] }

/-- C9: starting from a table whose rows show only item 1 while items also
holds item 2 (the filtered-out state), ToggleSelectionByKey 2 makes
Selected non-empty with no selected key among the rows, and SelectRange
then evaluates the Go slice rows[-1:-1], a fault (modelled as none). -/
theorem selectRange_oob_cex :
    (cKV.ToggleSelectionByKey 2).Selected = [(2, 20)]
      ∧ TableKV.selectRangeScan (cKV.ToggleSelectionByKey 2)
          (cKV.ToggleSelectionByKey 2).rows 0 (-1) = (-1, 0)
      ∧ (cKV.ToggleSelectionByKey 2).SelectRange = none := by
  decide

namespace Logging

/-- A log attribute (logging.Attr). -/
structure Attr where
  Key : String
  Value : String
deriving DecidableEq

/-- A log message (logging.Message), with the parsed time as a natural.
The Go field named Message (JSON key msg) is called Msg here because the
Lean field may not repeat the structure name. -/
structure Message where
  Time : Nat := 0
  Level : String := ""
  Msg : String := ""
  Attributes : List Attr := []
  res : Resource
  serial : Nat
deriving DecidableEq

/-- One keyval of a decoded logfmt record: the key and value strings;
`parseTime` stands for the external `time.Parse` whose failure aborts the
surrounding Write with the offending value. -/
def applyKeyval (parseTime : String → Option Nat) (m : Message) :
    String × String → Except String Message
  | (k, v) =>
      if k = "time" then
        match parseTime v with
        | some t => Except.ok { m with Time := t }
        | none => Except.error v
      else if k = "level" then Except.ok { m with Level := v }
      else if k = "msg" then Except.ok { m with Msg := v }
      else Except.ok { m with Attributes := m.Attributes ++ [⟨k, v⟩] }

/-- Building one Message in Logger.Write: start from the serial and a fresh
Log resource, then scan the record's keyvals in order. -/
def buildMessage (parseTime : String → Option Nat) (serial rid : Nat)
    (kvs : List (String × String)) : Except String Message :=
  kvs.foldlM (applyKeyval parseTime)
    { res := Resource.new rid Kind.Log "" none, serial := serial }

/-- The record loop of Logger.Write: returns the collected messages, the
final serial counter, and the time-parse error that aborted the loop, if
any. The serial is read before and incremented after each successful
record; fresh resource identifiers are rid, rid+1, and so on. -/
def scanRecords (parseTime : String → Option Nat) :
    Nat → Nat → List (List (String × String)) → List Message × Nat × Option String
  | _, serial, [] => ([], serial, none)
  | rid, serial, kvs :: rest =>
      match buildMessage parseTime serial rid kvs with
      | Except.error e => ([], serial, some e)
      | Except.ok msg =>
          let r := scanRecords parseTime (rid + 1) (serial + 1) rest
          (msg :: r.1, r.2)

/-- The decoded view of one input p to Logger.Write: the records the
logfmt decoder yields, the decoder error that stopped it (if any), and
len(p). -/
structure RawInput where
  records : List (List (String × String))
  decodeErr : Option String
  len : Nat
deriving DecidableEq

/-- The mutable state of a Logger touched by Write: the retained messages,
the chunks written to the log file, and the serial counter. -/
structure LoggerState where
  Messages : List Message
  fileChunks : List RawInput
  serial : Nat
deriving DecidableEq

/-- The three error sources of Logger.Write: a time-parse failure inside a
record, a logfmt decoder error after the scanned records, and a failure of
the log-file write. -/
inductive WriteErr where
  | timeParse (s : String)
  | decode (s : String)
  | fileWrite
deriving DecidableEq

/-- Logger.Write: scan records (publishing each and bumping the serial as
it goes), then fail on a decoder error, then append the messages, then
write the raw bytes to the file (`fileOk` is that write's outcome), and
only then return len(p). -/
def write (parseTime : String → Option Nat) (rid : Nat) (fileOk : Bool)
    (l : LoggerState) (p : RawInput) : LoggerState × Nat × Option WriteErr :=
  let scanned := scanRecords parseTime rid l.serial p.records
  match scanned.2.2 with
  | some e => ({ l with serial := scanned.2.1 }, 0, some (WriteErr.timeParse e))
  | none =>
      match p.decodeErr with
      | some e => ({ l with serial := scanned.2.1 }, 0, some (WriteErr.decode e))
      | none =>
          match fileOk with
          | true => (⟨l.Messages ++ scanned.1, l.fileChunks ++ [p], scanned.2.1⟩, p.len, none)
          | false => (⟨l.Messages ++ scanned.1, l.fileChunks, scanned.2.1⟩, 0,
              some WriteErr.fileWrite)

theorem applyKeyval_serial (parseTime : String → Option Nat) (m : Message)
    (kv : String × String) (m2 : Message)
    (h : applyKeyval parseTime m kv = Except.ok m2) : m2.serial = m.serial := by
  rcases kv with ⟨k, v⟩
  simp only [applyKeyval] at h
  split at h
  · split at h
    · cases h; rfl
    · cases h
  · split at h
    · cases h; rfl
    · split at h
      · cases h; rfl
      · cases h; rfl

theorem buildMessage_serial_aux (parseTime : String → Option Nat) :
    ∀ (kvs : List (String × String)) (m m2 : Message),
      kvs.foldlM (applyKeyval parseTime) m = Except.ok m2 → m2.serial = m.serial := by
  intro kvs
  induction kvs with
  | nil =>
      intro m m2 h
      cases h
      rfl
  | cons kv rest ih =>
      intro m m2 h
      rw [List.foldlM_cons] at h
      cases hk : applyKeyval parseTime m kv with
      | error e => rw [hk] at h; cases h
      | ok m1 =>
          rw [hk] at h
          have h2 : rest.foldlM (applyKeyval parseTime) m1 = Except.ok m2 := h
          exact (ih m1 m2 h2).trans (applyKeyval_serial parseTime m kv m1 hk)

theorem buildMessage_serial (parseTime : String → Option Nat) (serial rid : Nat)
    (kvs : List (String × String)) (m2 : Message)
    (h : buildMessage parseTime serial rid kvs = Except.ok m2) : m2.serial = serial :=
  buildMessage_serial_aux parseTime kvs _ m2 h

theorem scanRecords_ok (parseTime : String → Option Nat) :
    ∀ (recs : List (List (String × String))) (rid serial : Nat),
      (scanRecords parseTime rid serial recs).2.2 = none →
      (scanRecords parseTime rid serial recs).1.length = recs.length
      ∧ (scanRecords parseTime rid serial recs).2.1 = serial + recs.length
      ∧ ∀ msg ∈ (scanRecords parseTime rid serial recs).1,
          serial ≤ msg.serial ∧ msg.serial < serial + recs.length := by
  intro recs
  induction recs with
  | nil =>
      intro rid serial _
      exact ⟨rfl, rfl, by simp [scanRecords]⟩
  | cons kvs rest ih =>
      intro rid serial hok
      simp only [scanRecords] at hok ⊢
      cases hb : buildMessage parseTime serial rid kvs with
      | error e => rw [hb] at hok; simp at hok
      | ok msg =>
          rw [hb] at hok
          dsimp only at hok ⊢
          have hrest := ih (rid + 1) (serial + 1) hok
          simp only [List.length_cons]
          refine ⟨by simp [hrest.1], by rw [hrest.2.1]; omega, ?_⟩
          intro m hm
          simp only [List.mem_cons] at hm
          rcases hm with rfl | hm
          · have h1 := buildMessage_serial parseTime serial rid kvs m hb
            omega
          · have h2 := hrest.2.2 m hm
            omega

theorem scanRecords_serial_mono (parseTime : String → Option Nat) :
    ∀ (recs : List (List (String × String))) (rid serial : Nat),
      serial ≤ (scanRecords parseTime rid serial recs).2.1 := by
  intro recs
  induction recs with
  | nil => intro rid serial; exact le_rfl
  | cons kvs rest ih =>
      intro rid serial
      simp only [scanRecords]
      cases hb : buildMessage parseTime serial rid kvs with
      | error e => exact le_rfl
      | ok msg =>
          dsimp only
          have h1 := ih (rid + 1) (serial + 1)
          omega

/-- C10: Logger.Write returning a decode or time-parse error leaves the
retained messages and the log file unchanged and returns count 0; a nil
error returns len(p), appends one message per decoded record, and every
appended message's serial is at least the pre-write counter and therefore
strictly above every serial assigned by an earlier write (which sits below
the counter); and the below-the-counter invariant is preserved by every
write. -/
theorem logger_write_spec :
    (∀ (parseTime : String → Option Nat) (rid : Nat) (fileOk : Bool)
        (l : LoggerState) (p : RawInput) (l2 : LoggerState) (n : Nat) (e : WriteErr),
        write parseTime rid fileOk l p = (l2, n, some e) →
        e ≠ WriteErr.fileWrite →
        n = 0 ∧ l2.Messages = l.Messages ∧ l2.fileChunks = l.fileChunks)
    ∧ (∀ (parseTime : String → Option Nat) (rid : Nat) (fileOk : Bool)
        (l : LoggerState) (p : RawInput) (l2 : LoggerState) (n : Nat),
        write parseTime rid fileOk l p = (l2, n, none) →
        n = p.len
        ∧ l2.Messages = l.Messages ++ (scanRecords parseTime rid l.serial p.records).1
        ∧ (scanRecords parseTime rid l.serial p.records).1.length = p.records.length
        ∧ (∀ msg ∈ (scanRecords parseTime rid l.serial p.records).1,
            l.serial ≤ msg.serial
            ∧ ∀ m0 ∈ l.Messages, m0.serial < l.serial → m0.serial < msg.serial))
    ∧ (∀ (parseTime : String → Option Nat) (rid : Nat) (fileOk : Bool)
        (l : LoggerState) (p : RawInput),
        (∀ m0 ∈ l.Messages, m0.serial < l.serial) →
        ∀ m0 ∈ (write parseTime rid fileOk l p).1.Messages,
          m0.serial < (write parseTime rid fileOk l p).1.serial) := by
  refine ⟨?_, ?_, ?_⟩
  · intro pt rid fok l p l2 n e h hne
    cases hscan : (scanRecords pt rid l.serial p.records).2.2 with
    | some e1 =>
        simp only [write, hscan, Prod.mk.injEq] at h
        obtain ⟨h1, h2, _⟩ := h
        subst h1
        subst h2
        exact ⟨rfl, rfl, rfl⟩
    | none =>
        cases hdec : p.decodeErr with
        | some e2 =>
            simp only [write, hscan, hdec, Prod.mk.injEq] at h
            obtain ⟨h1, h2, _⟩ := h
            subst h1
            subst h2
            exact ⟨rfl, rfl, rfl⟩
        | none =>
            cases fok with
            | true =>
                simp only [write, hscan, hdec, Prod.mk.injEq] at h
                exact absurd h.2.2 (by simp)
            | false =>
                simp only [write, hscan, hdec, Prod.mk.injEq, Option.some.injEq] at h
                obtain ⟨h1, h2, h3⟩ := h
                cases h3
                exact absurd rfl hne
  · intro pt rid fok l p l2 n h
    cases hscan : (scanRecords pt rid l.serial p.records).2.2 with
    | some e1 =>
        simp only [write, hscan, Prod.mk.injEq] at h
        exact absurd h.2.2 (by simp)
    | none =>
        cases hdec : p.decodeErr with
        | some e2 =>
            simp only [write, hscan, hdec, Prod.mk.injEq] at h
            exact absurd h.2.2 (by simp)
        | none =>
            cases fok with
            | false =>
                simp only [write, hscan, hdec, Prod.mk.injEq] at h
                exact absurd h.2.2 (by simp)
            | true =>
                simp only [write, hscan, hdec, Prod.mk.injEq] at h
                obtain ⟨h1, h2, _⟩ := h
                subst h1
                subst h2
                have hok := scanRecords_ok pt p.records rid l.serial hscan
                refine ⟨rfl, rfl, hok.1, ?_⟩
                intro msg hmsg
                have hm := hok.2.2 msg hmsg
                exact ⟨hm.1, fun m0 _ hm0 => lt_of_lt_of_le hm0 hm.1⟩
  · intro pt rid fok l p hinv m0 hm0
    have hmono := scanRecords_serial_mono pt p.records rid l.serial
    cases hscan : (scanRecords pt rid l.serial p.records).2.2 with
    | some e1 =>
        simp only [write, hscan] at hm0 ⊢
        have h1 := hinv m0 hm0
        omega
    | none =>
        have hok := scanRecords_ok pt p.records rid l.serial hscan
        cases hdec : p.decodeErr with
        | some e2 =>
            simp only [write, hscan, hdec] at hm0 ⊢
            have h1 := hinv m0 hm0
            omega
        | none =>
            cases fok with
            | true =>
                simp only [write, hscan, hdec] at hm0 ⊢
                rcases List.mem_append.mp hm0 with hold | hnew
                · have h1 := hinv m0 hold
                  omega
                · have h2 := (hok.2.2 m0 hnew).2
                  have h3 := hok.2.1
                  omega
            | false =>
                simp only [write, hscan, hdec] at hm0 ⊢
                rcases List.mem_append.mp hm0 with hold | hnew
                · have h1 := hinv m0 hold
                  omega
                · have h2 := (hok.2.2 m0 hnew).2
                  have h3 := hok.2.1
                  omega

def cParseTime : String → Option Nat :=
  fun s => if s = "t9" then some 9 else none

def cRaw : RawInput :=
  { records := [[("time", "t9"), ("level", "info"), ("msg", "hi"), ("a", "b")]]
    decodeErr := none
    len := 42 }

def cRawBad : RawInput :=
  { records := [[("time", "zzz")]]
    decodeErr := none
    len := 3 }

def cLog0 : LoggerState := { Messages := [], fileChunks := [], serial := 0 }

def cWriteOk : LoggerState × Nat × Option WriteErr :=
  write cParseTime 7 true cLog0 cRaw

def cWriteBad : LoggerState × Nat × Option WriteErr :=
  write cParseTime 9 true cLog0 cRawBad

theorem logger_write_spec_witness :
    cWriteOk.2.1 = cRaw.len ∧ cWriteBad.1.Messages = cLog0.Messages :=
  ⟨(logger_write_spec.2.1 cParseTime 7 true cLog0 cRaw cWriteOk.1 cWriteOk.2.1 rfl).1,
   (logger_write_spec.1 cParseTime 9 true cLog0 cRawBad cWriteBad.1 cWriteBad.2.1
      (WriteErr.timeParse "zzz") rfl (by decide)).2.1⟩

end Logging

end Pug
